import Mathlib

/-!
Shallow embedding of the pomodoro timer application (src/src/App.tsx).

Modelling conventions:
- Timestamps: the code stores ISO-8601 strings and compares instants through
  Date.getTime(); here an instant is a Nat of milliseconds since the Unix
  epoch (the clock is assumed non-negative, i.e. after 1970).
- JS numbers that feed the task estimate are modelled as Option Int, with
  none standing for NaN; the number input of the form produces integers, so
  fractional doubles are out of the modelled domain.
- JS truthiness of a nullable string (null and the empty string are falsy)
  is made explicit by the function truthy.
- React state is gathered in one AppState record; each event handler of the
  component becomes a pure function AppState to AppState.  The effect hook
  that resets secondsLeft whenever mode changes is modelled by
  withModeEffect, applied to every handler that can change the mode.
-/

namespace Pomodoro

/-- The two timer modes of the source, type Mode = "focus" | "break"
(break is a reserved word in Lean, so the second constructor is brk). -/
inductive Mode where
  | focus
  | brk
deriving DecidableEq

/-- Mode flip, prev === "focus" ? "break" : "focus". -/
def flipMode : Mode → Mode
  | Mode.focus => Mode.brk
  | Mode.brk => Mode.focus

/-- Task record from the source: id, title, category, estimate, done,
completedPomodoros.  estimate is a JS number holding an integer. -/
structure Task where
  id : String
  title : String
  category : String
  estimate : Int
  done : Bool
  completedPomodoros : Nat
deriving DecidableEq

/-- Session record from the source.  start and end are stored as ISO strings
in the code; here they are the underlying instants in milliseconds
(startMs, endMs), since the code only ever reads them back through
new Date(...).getTime() and toISOString().slice(0, 10). -/
structure Session where
  id : String
  taskId : Option String
  startMs : Nat
  endMs : Nat
  durationSec : Nat
  type : Mode
deriving DecidableEq

/-- The component state: tasks, selectedTaskId, sessions, mode, secondsLeft,
isRunning, currentSessionStart (an instant in ms when present). -/
structure AppState where
  tasks : List Task
  selectedTaskId : Option String
  sessions : List Session
  mode : Mode
  secondsLeft : Nat
  isRunning : Bool
  currentSessionStart : Option Nat
deriving DecidableEq

/-- FOCUS_MIN = 1 in the source. -/
def FOCUS_MIN : Nat := 1

/-- BREAK_MIN = 1 in the source. -/
def BREAK_MIN : Nat := 1

/-- Full interval length in seconds for a mode: FOCUS_MIN * 60 for focus,
BREAK_MIN * 60 for break, as in the mode-reset effect and handleReset. -/
def intervalSeconds : Mode → Nat
  | Mode.focus => FOCUS_MIN * 60
  | Mode.brk => BREAK_MIN * 60

/-- JS String.prototype.trim as used by the handlers: strip leading and
trailing whitespace.  Defined structurally on the character list so that
concrete instances evaluate inside the kernel. -/
def jsTrim (s : String) : String :=
  ⟨((s.data.dropWhile Char.isWhitespace).reverse.dropWhile Char.isWhitespace).reverse⟩

/-- JS truthiness of a string | null value: null and "" are falsy. -/
def truthy : Option String → Bool
  | none => false
  | some s => s ≠ ""

/-- The expression Number(x) || 0 applied to a JS number x that may be NaN
(none): NaN becomes 0, every integer value passes through (0 || 0 is 0,
which agrees with the identity on 0). -/
def jsOr0 : Option Int → Int
  | none => 0
  | some v => v

/-- Math.round((endMs - startMs) / 1000) for endMs at or after startMs:
rounding to the nearest second, halves rounding up. -/
def jsRoundDurationSec (diffMs : Nat) : Nat := (diffMs + 500) / 1000

/-- The effect hook that fires whenever mode changes and resets secondsLeft
to the full interval of the new mode.  withModeEffect f s runs f and then,
exactly when the mode is different from before, applies the reset. -/
def withModeEffect (f : AppState → AppState) (s : AppState) : AppState :=
  if (f s).mode ≠ s.mode then { f s with secondsLeft := intervalSeconds (f s).mode } else f s

/-- handleSessionEnd from the source, with the wall clock value now (ms) and
the fresh session id sid passed as parameters (the code takes them from
new Date() and Date.now()).  Sets isRunning false; with no start timestamp
only flips the mode; otherwise appends one Session, and in focus mode with a
truthy selected id increments that task and moves to break, else moves to
focus; finally clears currentSessionStart. -/
def handleSessionEnd (now : Nat) (sid : String) (s : AppState) : AppState :=
  let s := { s with isRunning := false }
  match s.currentSessionStart with
  | none => { s with mode := flipMode s.mode }
  | some startMs =>
    let durationSec := jsRoundDurationSec (now - startMs)
    let newSession : Session :=
      { id := sid
        taskId := if s.mode = Mode.focus then s.selectedTaskId else none
        startMs := startMs
        endMs := now
        durationSec := durationSec
        type := s.mode }
    let s := { s with sessions := s.sessions ++ [newSession] }
    let s :=
      if s.mode = Mode.focus ∧ truthy s.selectedTaskId then
        { s with
            tasks := s.tasks.map fun t =>
              if some t.id = s.selectedTaskId then
                { t with completedPomodoros := t.completedPomodoros + 1 }
              else t
            mode := Mode.brk }
      else
        { s with mode := Mode.focus }
    { s with currentSessionStart := none }

/-- One firing of the countdown interval.  The interval only exists while
isRunning is true; the updater ends the session and clamps to 0 when
secondsLeft would go below 1, else decrements.  The mode-reset effect is
applied on top because handleSessionEnd changes the mode. -/
def tick (now : Nat) (sid : String) (s : AppState) : AppState :=
  if s.isRunning then
    if s.secondsLeft ≤ 1 then
      withModeEffect (handleSessionEnd now sid) { s with secondsLeft := 0 }
    else
      { s with secondsLeft := s.secondsLeft - 1 }
  else s

/-- handleAddTask from the source, with the form fields (title, category,
estimate) and the fresh id passed in.  Rejects a title that trims to empty;
otherwise appends one task with done false and completedPomodoros 0, and
selects it when no task id was truthy-selected before. -/
def handleAddTask (newId : String) (title category : String)
    (estimate : Option Int) (s : AppState) : AppState :=
  if jsTrim title = "" then s
  else
    let newTask : Task :=
      { id := newId
        title := jsTrim title
        category := jsTrim category
        estimate := jsOr0 estimate
        done := false
        completedPomodoros := 0 }
    let s := { s with tasks := s.tasks ++ [newTask] }
    if ¬ truthy s.selectedTaskId then { s with selectedTaskId := some newId } else s

/-- toggleTaskDone from the source: flip done on every task whose id
matches. -/
def toggleTaskDone (taskId : String) (s : AppState) : AppState :=
  { s with tasks := s.tasks.map fun t => if t.id = taskId then { t with done := ¬ t.done } else t }

/-- The alert guard of handleStart: true exactly when the handler shows the
blocking notice (focus mode and no truthy selected task id). -/
def startAlerts (s : AppState) : Bool :=
  s.mode = Mode.focus ∧ ¬ truthy s.selectedTaskId

/-- handleStart from the source: in focus mode with no truthy selected task
it alerts and returns unchanged; otherwise, when not already running, sets
isRunning and records currentSessionStart := now. -/
def handleStart (now : Nat) (s : AppState) : AppState :=
  if s.mode = Mode.focus ∧ ¬ truthy s.selectedTaskId then s
  else if ¬ s.isRunning then
    { s with isRunning := true, currentSessionStart := some now }
  else s

/-- handlePause from the source: only sets isRunning := false. -/
def handlePause (s : AppState) : AppState :=
  { s with isRunning := false }

/-- handleReset from the source: stops, clears the start timestamp and
restores secondsLeft to the full interval of the current mode. -/
def handleReset (s : AppState) : AppState :=
  { s with
      isRunning := false
      currentSessionStart := none
      secondsLeft := intervalSeconds s.mode }

/-- handleSwitchMode from the source: stops, clears the start timestamp and
flips the mode; the countdown reset comes from the mode-change effect. -/
def handleSwitchMode (s : AppState) : AppState :=
  withModeEffect
    (fun s => { s with isRunning := false, currentSessionStart := none, mode := flipMode s.mode })
    s

/-- setSelectedTaskId(t.id) wired to the select button: stores any id with
no existence validation. -/
def selectTask (taskId : String) (s : AppState) : AppState :=
  { s with selectedTaskId := some taskId }

/-- The state right after mount: tasks and sessions come from localStorage
(arbitrary persisted lists), selection empty, focus mode, full focus
countdown, paused, no session start. -/
def initState (tasks0 : List Task) (sessions0 : List Session) : AppState :=
  { tasks := tasks0
    selectedTaskId := none
    sessions := sessions0
    mode := Mode.focus
    secondsLeft := FOCUS_MIN * 60
    isRunning := false
    currentSessionStart := none }

/-- One user action or timer firing, as a relation between states. -/
inductive Step : AppState → AppState → Prop
  | start (now : Nat) (s : AppState) : Step s (handleStart now s)
  | pause (s : AppState) : Step s (handlePause s)
  | reset (s : AppState) : Step s (handleReset s)
  | switchMode (s : AppState) : Step s (handleSwitchMode s)
  | tick (now : Nat) (sid : String) (s : AppState) : Step s (tick now sid s)
  | addTask (newId title category : String) (estimate : Option Int) (s : AppState) :
      Step s (handleAddTask newId title category estimate s)
  | toggleDone (taskId : String) (s : AppState) : Step s (toggleTaskDone taskId s)
  | select (taskId : String) (s : AppState) : Step s (selectTask taskId s)

/-- States reachable from some mount state by user actions and ticks. -/
inductive Reachable : AppState → Prop
  | init (tasks0 : List Task) (sessions0 : List Session) :
      Reachable (initState tasks0 sessions0)
  | step {s s' : AppState} : Reachable s → Step s s' → Reachable s'

/-- Milliseconds per UTC calendar day. -/
def MS_PER_DAY : Nat := 86400000

/-- The day bucket of an instant, new Date(start).toISOString().slice(0, 10)
in the source: the UTC calendar date.  Two instants get the same ISO date
prefix exactly when they fall in the same UTC day, so the bucket is modelled
as the UTC day number since the epoch; ascending order of day numbers is the
lexicographic order of the fixed-width date strings. -/
def dayKey (ms : Nat) : Nat := ms / MS_PER_DAY

/-- sessions.filter((s) => s.type === "focus") from the source. -/
def focusSessions (sessions : List Session) : List Session :=
  sessions.filter fun s => s.type = Mode.focus

/-- One step of the reduce building dailyStats: if (!acc[key]) acc[key] = 0;
acc[key] += s.durationSec.  A JS object with non-index string keys keeps
insertion order, so the accumulator is an association list; a missing key is
appended at the end, an existing key is updated in place. -/
def addToStats (acc : List (Nat × Nat)) (s : Session) : List (Nat × Nat) :=
  let key := dayKey s.startMs
  if acc.any fun p => p.1 = key then
    acc.map fun p => if p.1 = key then (p.1, p.2 + s.durationSec) else p
  else
    acc ++ [(key, s.durationSec)]

/-- dailyStats from the source: focusSessions.reduce over addToStats from an
empty object. -/
def dailyStats (sessions : List Session) : List (Nat × Nat) :=
  (focusSessions sessions).foldl addToStats []

/-- maxSec from the source: Math.max over the values of dailyStats when any
exist, else 0.  With non-negative values this is a fold of max over 0. -/
def maxSec (sessions : List Session) : Nat :=
  (dailyStats sessions).foldr (fun p m => max p.2 m) 0

/-- daysSorted from the source: Object.keys(dailyStats).sort().  The default
sort on the fixed-width date keys is their ascending chronological order,
here the ascending order of day numbers. -/
def daysSorted (sessions : List Session) : List Nat :=
  ((dailyStats sessions).map fun p => p.1).mergeSort fun a b => a ≤ b

/-! Field lemmas for the handlers, used throughout the development. -/

@[simp] theorem withModeEffect_isRunning (f : AppState → AppState) (s : AppState) :
    (withModeEffect f s).isRunning = (f s).isRunning := by
  unfold withModeEffect; split <;> rfl

@[simp] theorem withModeEffect_currentSessionStart (f : AppState → AppState) (s : AppState) :
    (withModeEffect f s).currentSessionStart = (f s).currentSessionStart := by
  unfold withModeEffect; split <;> rfl

@[simp] theorem withModeEffect_sessions (f : AppState → AppState) (s : AppState) :
    (withModeEffect f s).sessions = (f s).sessions := by
  unfold withModeEffect; split <;> rfl

@[simp] theorem withModeEffect_tasks (f : AppState → AppState) (s : AppState) :
    (withModeEffect f s).tasks = (f s).tasks := by
  unfold withModeEffect; split <;> rfl

@[simp] theorem withModeEffect_mode (f : AppState → AppState) (s : AppState) :
    (withModeEffect f s).mode = (f s).mode := by
  unfold withModeEffect; split <;> rfl

@[simp] theorem withModeEffect_selectedTaskId (f : AppState → AppState) (s : AppState) :
    (withModeEffect f s).selectedTaskId = (f s).selectedTaskId := by
  unfold withModeEffect; split <;> rfl

theorem withModeEffect_secondsLeft_of_change (f : AppState → AppState) (s : AppState)
    (h : (f s).mode ≠ s.mode) :
    (withModeEffect f s).secondsLeft = intervalSeconds ((f s).mode) := by
  unfold withModeEffect; simp [h]

theorem withModeEffect_secondsLeft_of_eq (f : AppState → AppState) (s : AppState)
    (h : (f s).mode = s.mode) :
    (withModeEffect f s).secondsLeft = (f s).secondsLeft := by
  unfold withModeEffect; simp [h]

theorem handleSessionEnd_isRunning (now : Nat) (sid : String) (s : AppState) :
    (handleSessionEnd now sid s).isRunning = false := by
  unfold handleSessionEnd
  rcases h : s.currentSessionStart with _ | st
  · simp [h]
  · simp only [h]
    split <;> rfl

theorem handleSessionEnd_currentSessionStart (now : Nat) (sid : String) (s : AppState) :
    (handleSessionEnd now sid s).currentSessionStart = none := by
  unfold handleSessionEnd
  rcases h : s.currentSessionStart with _ | st <;> simp [h]

theorem handleStart_mode (now : Nat) (s : AppState) : (handleStart now s).mode = s.mode := by
  unfold handleStart
  split
  · rfl
  · split <;> rfl

theorem handleStart_tasks (now : Nat) (s : AppState) : (handleStart now s).tasks = s.tasks := by
  unfold handleStart
  split
  · rfl
  · split <;> rfl

theorem handleStart_sessions (now : Nat) (s : AppState) :
    (handleStart now s).sessions = s.sessions := by
  unfold handleStart
  split
  · rfl
  · split <;> rfl

theorem handleStart_secondsLeft (now : Nat) (s : AppState) :
    (handleStart now s).secondsLeft = s.secondsLeft := by
  unfold handleStart
  split
  · rfl
  · split <;> rfl

theorem handleAddTask_mode (newId title category : String) (est : Option Int) (s : AppState) :
    (handleAddTask newId title category est s).mode = s.mode := by
  simp only [handleAddTask]
  split
  · rfl
  · split <;> rfl

theorem handleAddTask_secondsLeft (newId title category : String) (est : Option Int)
    (s : AppState) :
    (handleAddTask newId title category est s).secondsLeft = s.secondsLeft := by
  simp only [handleAddTask]
  split
  · rfl
  · split <;> rfl

theorem handleAddTask_isRunning (newId title category : String) (est : Option Int)
    (s : AppState) :
    (handleAddTask newId title category est s).isRunning = s.isRunning := by
  simp only [handleAddTask]
  split
  · rfl
  · split <;> rfl

theorem handleAddTask_currentSessionStart (newId title category : String) (est : Option Int)
    (s : AppState) :
    (handleAddTask newId title category est s).currentSessionStart = s.currentSessionStart := by
  simp only [handleAddTask]
  split
  · rfl
  · split <;> rfl

theorem handleAddTask_sessions (newId title category : String) (est : Option Int)
    (s : AppState) :
    (handleAddTask newId title category est s).sessions = s.sessions := by
  simp only [handleAddTask]
  split
  · rfl
  · split <;> rfl

/-- C7: Reset stops the timer, clears the session start timestamp and
restores the full interval of the current mode, leaving the session log, the
task registry, the mode and the selection untouched; in particular it never
appends a Session, whatever had elapsed. -/
theorem reset_spec (s : AppState) :
    (handleReset s).isRunning = false ∧
    (handleReset s).currentSessionStart = none ∧
    (handleReset s).secondsLeft = intervalSeconds s.mode ∧
    (handleReset s).sessions = s.sessions ∧
    (handleReset s).tasks = s.tasks ∧
    (handleReset s).mode = s.mode ∧
    (handleReset s).selectedTaskId = s.selectedTaskId :=
  ⟨rfl, rfl, rfl, rfl, rfl, rfl, rfl⟩

/-- C2: starting in focus mode with no selected task is rejected: the alert
guard fires and the state is returned entirely unchanged, so isRunning stays
false if it was, currentSessionStart stays absent, secondsLeft is untouched
and no Session is appended. -/
theorem start_rejected (now : Nat) (s : AppState)
    (hmode : s.mode = Mode.focus) (hsel : s.selectedTaskId = none) :
    handleStart now s = s ∧ startAlerts s = true := by
  constructor
  · unfold handleStart
    simp [hmode, hsel, truthy]
  · unfold startAlerts
    simp [hmode, hsel, truthy]

/-- Witness for C2 at the mount state, whose mode is focus and whose
selection is empty. -/
theorem start_rejected_witness :
    (initState [] []).mode = Mode.focus ∧
    (initState [] []).selectedTaskId = none ∧
    handleStart 0 (initState [] []) = initState [] [] ∧
    startAlerts (initState [] []) = true := by
  refine ⟨rfl, rfl, ?_, ?_⟩
  · exact (start_rejected 0 (initState [] []) rfl rfl).1
  · exact (start_rejected 0 (initState [] []) rfl rfl).2

theorem flipMode_ne (m : Mode) : flipMode m ≠ m := by
  cases m <;> decide

/-- C6: every step that changes the mode leaves secondsLeft equal to the
full interval of the new mode; Switch Mode in particular flips the mode,
resets secondsLeft to the new full length, clears the session start, stops
the timer and appends no Session. -/
theorem mode_change_resets_secondsLeft :
    (∀ s s' : AppState, Step s s' → s'.mode ≠ s.mode →
        s'.secondsLeft = intervalSeconds s'.mode) ∧
    (∀ s : AppState,
        (handleSwitchMode s).mode = flipMode s.mode ∧
        (handleSwitchMode s).secondsLeft = intervalSeconds (flipMode s.mode) ∧
        (handleSwitchMode s).currentSessionStart = none ∧
        (handleSwitchMode s).isRunning = false ∧
        (handleSwitchMode s).sessions = s.sessions) := by
  have hswitch : ∀ s : AppState,
      ((fun s : AppState =>
        { s with isRunning := false, currentSessionStart := none, mode := flipMode s.mode }) s).mode
        ≠ s.mode := fun s => flipMode_ne s.mode
  constructor
  · intro s s' hstep hne
    cases hstep with
    | start now s =>
      rw [handleStart_mode] at hne
      exact absurd rfl hne
    | pause s => exact absurd rfl hne
    | reset s => exact absurd rfl hne
    | switchMode s =>
      unfold handleSwitchMode
      rw [withModeEffect_secondsLeft_of_change _ _ (hswitch s), withModeEffect_mode]
    | tick now sid s =>
      by_cases hr : s.isRunning
      · by_cases hsec : s.secondsLeft ≤ 1
        · have hchange :
              (handleSessionEnd now sid { s with secondsLeft := 0 }).mode
                ≠ ({ s with secondsLeft := 0 } : AppState).mode := by
            have : tick now sid s =
                withModeEffect (handleSessionEnd now sid) { s with secondsLeft := 0 } := by
              simp [tick, hr, hsec]
            rw [this, withModeEffect_mode] at hne
            exact hne
          have : tick now sid s =
              withModeEffect (handleSessionEnd now sid) { s with secondsLeft := 0 } := by
            simp [tick, hr, hsec]
          rw [this, withModeEffect_secondsLeft_of_change _ _ hchange, withModeEffect_mode]
        · simp [tick, hr, hsec] at hne
      · simp [tick, hr] at hne
    | addTask newId title category est s =>
      rw [handleAddTask_mode] at hne
      exact absurd rfl hne
    | toggleDone taskId s => exact absurd rfl hne
    | select taskId s => exact absurd rfl hne
  · intro s
    refine ⟨?_, ?_, ?_, ?_, ?_⟩
    · rw [handleSwitchMode, withModeEffect_mode]
    · rw [handleSwitchMode, withModeEffect_secondsLeft_of_change _ _ (hswitch s)]
    · rw [handleSwitchMode, withModeEffect_currentSessionStart]
    · rw [handleSwitchMode, withModeEffect_isRunning]
    · rw [handleSwitchMode, withModeEffect_sessions]

/-- Witness for C6 at the mount state: switching mode there changes the mode
and leaves secondsLeft at the new interval length. -/
theorem mode_change_resets_secondsLeft_witness :
    (handleSwitchMode (initState [] [])).mode ≠ (initState [] []).mode ∧
    (handleSwitchMode (initState [] [])).secondsLeft =
      intervalSeconds (handleSwitchMode (initState [] [])).mode := by
  constructor
  · decide
  · exact mode_change_resets_secondsLeft.1 _ _ (Step.switchMode _) (by decide)

/-- C3: with a title that trims non-empty, Add appends exactly one task with
the given fresh id, done false, completedPomodoros 0 and estimate the
numeric value of the input (0 when the input is NaN); with a title that
trims empty the state is returned unchanged; and when no task was selected
the new task becomes selected. -/
theorem addTask_spec (newId title category : String) (est : Option Int) (s : AppState) :
    (jsTrim title ≠ "" →
      (handleAddTask newId title category est s).tasks =
        s.tasks ++ [{ id := newId, title := jsTrim title, category := jsTrim category,
                      estimate := jsOr0 est, done := false, completedPomodoros := 0 }] ∧
      (est = none → jsOr0 est = 0) ∧
      (∀ v : Int, est = some v → jsOr0 est = v) ∧
      (s.selectedTaskId = none →
        (handleAddTask newId title category est s).selectedTaskId = some newId)) ∧
    (jsTrim title = "" → handleAddTask newId title category est s = s) := by
  constructor
  · intro h
    refine ⟨?_, fun he => by simp [he, jsOr0], fun v hv => by simp [hv, jsOr0], ?_⟩
    · simp only [handleAddTask, if_neg h]
      split <;> rfl
    · intro hsel
      simp only [handleAddTask, if_neg h]
      rw [if_pos]
      simp [hsel, truthy]
  · intro h
    simp [handleAddTask, h]

/-- Witness for C3: adding a task to the mount state appends it and selects
it; adding with a whitespace title changes nothing. -/
theorem addTask_spec_witness :
    jsTrim "hi" ≠ "" ∧
    (handleAddTask "7" "hi" "c" (some 3) (initState [] [])).tasks =
      [{ id := "7", title := jsTrim "hi", category := jsTrim "c", estimate := jsOr0 (some 3),
         done := false, completedPomodoros := 0 }] ∧
    (handleAddTask "7" "hi" "c" (some 3) (initState [] [])).selectedTaskId = some "7" ∧
    handleAddTask "9" " " "c" none (initState [] []) = initState [] [] := by
  have h1 := (addTask_spec "7" "hi" "c" (some 3) (initState [] [])).1 (by decide)
  have h2 := (addTask_spec "9" " " "c" none (initState [] [])).2 (by decide)
  exact ⟨by decide, h1.1, h1.2.2.2 rfl, h2⟩

theorem map_pomodoro_split (pre post : List Task) (T : Task) (tid : String)
    (hTid : T.id = tid) (hpre : ∀ u ∈ pre, u.id ≠ tid) (hpost : ∀ u ∈ post, u.id ≠ tid) :
    (pre ++ T :: post).map
        (fun t => if some t.id = some tid then
            { t with completedPomodoros := t.completedPomodoros + 1 } else t) =
      pre ++ { T with completedPomodoros := T.completedPomodoros + 1 } :: post := by
  rw [List.map_append, List.map_cons]
  congr 1
  · conv_rhs => rw [← List.map_id pre]
    exact List.map_congr_left fun a ha => by simp [hpre a ha]
  · congr 1
    · simp [hTid]
    · conv_rhs => rw [← List.map_id post]
      exact List.map_congr_left fun a ha => by simp [hpost a ha]

theorem map_pomodoro_id (l : List Task) (tid : String) (hall : ∀ u ∈ l, u.id ≠ tid) :
    l.map (fun t => if some t.id = some tid then
        { t with completedPomodoros := t.completedPomodoros + 1 } else t) = l := by
  conv_rhs => rw [← List.map_id l]
  exact List.map_congr_left fun a ha => by simp [hall a ha]

theorem jsRoundDurationSec_nearest (diffMs : Nat) :
    jsRoundDurationSec diffMs * 1000 ≤ diffMs + 500 ∧
    diffMs + 500 < jsRoundDurationSec diffMs * 1000 + 1000 := by
  unfold jsRoundDurationSec
  have h := Nat.div_add_mod (diffMs + 500) 1000
  have h2 : (diffMs + 500) % 1000 < 1000 := Nat.mod_lt _ (by norm_num)
  omega

theorem tick_expire_eq (now : Nat) (sid : String) (s : AppState)
    (hrun : s.isRunning = true) (hsec : s.secondsLeft ≤ 1) :
    tick now sid s = withModeEffect (handleSessionEnd now sid) { s with secondsLeft := 0 } := by
  simp [tick, hrun, hsec]

/-- C1: a running focus countdown with a start timestamp and a selected task
present exactly once in the registry, on expiry, appends exactly one focus
Session carrying that task id, whose durationSec is the wall-clock
difference end minus start rounded to the nearest second (characterised by
the two bounds); the selected task gains exactly one completedPomodoro while
every other task is untouched; the mode becomes break and secondsLeft is
reset to the break interval length. -/
theorem focus_expire_spec (now st : Nat) (sid tid : String) (s : AppState)
    (pre post : List Task) (T : Task)
    (hmode : s.mode = Mode.focus)
    (hrun : s.isRunning = true)
    (hstart : s.currentSessionStart = some st)
    (hsel : s.selectedTaskId = some tid)
    (htid : tid ≠ "")
    (htasks : s.tasks = pre ++ T :: post)
    (hTid : T.id = tid)
    (hpre : ∀ u ∈ pre, u.id ≠ tid)
    (hpost : ∀ u ∈ post, u.id ≠ tid)
    (hsec : s.secondsLeft ≤ 1)
    (_hnow : st ≤ now) :
    (tick now sid s).sessions =
      s.sessions ++ [{ id := sid, taskId := some tid, startMs := st, endMs := now,
                       durationSec := jsRoundDurationSec (now - st), type := Mode.focus }] ∧
    jsRoundDurationSec (now - st) * 1000 ≤ (now - st) + 500 ∧
    (now - st) + 500 < jsRoundDurationSec (now - st) * 1000 + 1000 ∧
    (tick now sid s).tasks =
      pre ++ { T with completedPomodoros := T.completedPomodoros + 1 } :: post ∧
    (tick now sid s).mode = Mode.brk ∧
    (tick now sid s).secondsLeft = intervalSeconds Mode.brk ∧
    (tick now sid s).isRunning = false ∧
    (tick now sid s).currentSessionStart = none := by
  rw [tick_expire_eq now sid s hrun hsec]
  have hse : handleSessionEnd now sid { s with secondsLeft := 0 } =
      { s with
          tasks := (pre ++ T :: post).map
            (fun t => if some t.id = some tid then
                { t with completedPomodoros := t.completedPomodoros + 1 } else t)
          sessions := s.sessions ++
            [{ id := sid, taskId := some tid, startMs := st, endMs := now,
               durationSec := jsRoundDurationSec (now - st), type := Mode.focus }]
          mode := Mode.brk
          secondsLeft := 0
          isRunning := false
          currentSessionStart := none } := by
    simp [handleSessionEnd, hstart, hmode, hsel, truthy, htid, htasks]
  have hchange :
      (handleSessionEnd now sid { s with secondsLeft := 0 }).mode
        ≠ ({ s with secondsLeft := 0 } : AppState).mode := by
    rw [hse]
    simp [hmode]
  refine ⟨?_, (jsRoundDurationSec_nearest (now - st)).1,
    (jsRoundDurationSec_nearest (now - st)).2, ?_, ?_, ?_, ?_, ?_⟩
  · rw [withModeEffect_sessions, hse]
  · rw [withModeEffect_tasks, hse]
    exact map_pomodoro_split pre post T tid hTid hpre hpost
  · rw [withModeEffect_mode, hse]
  · rw [withModeEffect_secondsLeft_of_change _ _ hchange, hse]
  · rw [withModeEffect_isRunning, hse]
  · rw [withModeEffect_currentSessionStart, hse]

/-- Concrete running focus state used to witness the focus expiry claim. -/
def witnessFocusTask : Task :=
  { id := "t1", title := "a", category := "", estimate := 1, done := false,
    completedPomodoros := 0 }

/-- Concrete running focus state: one task, selected, countdown at its last
second, started at instant 1000. -/
def witnessFocusState : AppState :=
  { tasks := [witnessFocusTask], selectedTaskId := some "t1", sessions := [],
    mode := Mode.focus, secondsLeft := 1, isRunning := true,
    currentSessionStart := some 1000 }

/-- Witness for C1: the concrete running focus state satisfies the
hypotheses and its expiry yields the break mode with a full break
countdown. -/
theorem focus_expire_spec_witness :
    witnessFocusState.secondsLeft ≤ 1 ∧ 1000 ≤ 61000 ∧
    (tick 61000 "s1" witnessFocusState).mode = Mode.brk ∧
    (tick 61000 "s1" witnessFocusState).secondsLeft = intervalSeconds Mode.brk ∧
    (tick 61000 "s1" witnessFocusState).tasks =
      [] ++ { witnessFocusTask with
                completedPomodoros := witnessFocusTask.completedPomodoros + 1 } :: [] := by
  have h := focus_expire_spec 61000 1000 "s1" "t1" witnessFocusState [] [] witnessFocusTask
    rfl rfl rfl rfl (by decide) rfl rfl (by simp) (by simp) (by decide) (by decide)
  exact ⟨by decide, by decide, h.2.2.2.2.1, h.2.2.2.2.2.1, h.2.2.2.1⟩

/-- C4: a running break countdown with a start timestamp, on expiry, appends
exactly one break Session with no task reference, whatever the selection is,
leaves the tasks untouched and moves back to focus mode. -/
theorem break_expire_spec (now st : Nat) (sid : String) (s : AppState)
    (hmode : s.mode = Mode.brk)
    (hrun : s.isRunning = true)
    (hstart : s.currentSessionStart = some st)
    (hsec : s.secondsLeft ≤ 1) :
    (tick now sid s).sessions =
      s.sessions ++ [{ id := sid, taskId := none, startMs := st, endMs := now,
                       durationSec := jsRoundDurationSec (now - st), type := Mode.brk }] ∧
    (tick now sid s).tasks = s.tasks ∧
    (tick now sid s).mode = Mode.focus ∧
    (tick now sid s).secondsLeft = intervalSeconds Mode.focus ∧
    (tick now sid s).isRunning = false ∧
    (tick now sid s).currentSessionStart = none := by
  rw [tick_expire_eq now sid s hrun hsec]
  have hse : handleSessionEnd now sid { s with secondsLeft := 0 } =
      { s with
          sessions := s.sessions ++
            [{ id := sid, taskId := none, startMs := st, endMs := now,
               durationSec := jsRoundDurationSec (now - st), type := Mode.brk }]
          mode := Mode.focus
          secondsLeft := 0
          isRunning := false
          currentSessionStart := none } := by
    simp [handleSessionEnd, hstart, hmode]
  have hchange :
      (handleSessionEnd now sid { s with secondsLeft := 0 }).mode
        ≠ ({ s with secondsLeft := 0 } : AppState).mode := by
    rw [hse]
    simp [hmode]
  refine ⟨?_, ?_, ?_, ?_, ?_, ?_⟩
  · rw [withModeEffect_sessions, hse]
  · rw [withModeEffect_tasks, hse]
  · rw [withModeEffect_mode, hse]
  · rw [withModeEffect_secondsLeft_of_change _ _ hchange, hse]
  · rw [withModeEffect_isRunning, hse]
  · rw [withModeEffect_currentSessionStart, hse]

/-- Concrete running break state with a task selected, to witness that the
break Session still carries no task reference. -/
def witnessBreakState : AppState :=
  { tasks := [witnessFocusTask], selectedTaskId := some "t1", sessions := [],
    mode := Mode.brk, secondsLeft := 1, isRunning := true,
    currentSessionStart := some 2000 }

/-- Witness for C4: expiring the concrete break state appends the break
Session with no task id even though a task is selected. -/
theorem break_expire_spec_witness :
    witnessBreakState.secondsLeft ≤ 1 ∧
    witnessBreakState.selectedTaskId = some "t1" ∧
    (tick 32000 "s2" witnessBreakState).sessions =
      [{ id := "s2", taskId := none, startMs := 2000, endMs := 32000,
         durationSec := jsRoundDurationSec (32000 - 2000), type := Mode.brk }] ∧
    (tick 32000 "s2" witnessBreakState).mode = Mode.focus := by
  have h := break_expire_spec 32000 2000 "s2" witnessBreakState rfl rfl rfl (by decide)
  exact ⟨by decide, rfl, h.1, h.2.2.1⟩

/-- C10: a running focus countdown whose selected task id matches no task in
the registry still appends, on expiry, exactly one focus Session carrying
the dangling id, changes no task at all, and moves to break mode. -/
theorem dangling_expire_spec (now st : Nat) (sid tid : String) (s : AppState)
    (hmode : s.mode = Mode.focus)
    (hrun : s.isRunning = true)
    (hstart : s.currentSessionStart = some st)
    (hsel : s.selectedTaskId = some tid)
    (htid : tid ≠ "")
    (hdangling : ∀ t ∈ s.tasks, t.id ≠ tid)
    (hsec : s.secondsLeft ≤ 1) :
    (tick now sid s).sessions =
      s.sessions ++ [{ id := sid, taskId := some tid, startMs := st, endMs := now,
                       durationSec := jsRoundDurationSec (now - st), type := Mode.focus }] ∧
    (tick now sid s).tasks = s.tasks ∧
    (tick now sid s).mode = Mode.brk := by
  rw [tick_expire_eq now sid s hrun hsec]
  have hse : handleSessionEnd now sid { s with secondsLeft := 0 } =
      { s with
          tasks := s.tasks.map
            (fun t => if some t.id = some tid then
                { t with completedPomodoros := t.completedPomodoros + 1 } else t)
          sessions := s.sessions ++
            [{ id := sid, taskId := some tid, startMs := st, endMs := now,
               durationSec := jsRoundDurationSec (now - st), type := Mode.focus }]
          mode := Mode.brk
          secondsLeft := 0
          isRunning := false
          currentSessionStart := none } := by
    simp [handleSessionEnd, hstart, hmode, hsel, truthy, htid]
  refine ⟨?_, ?_, ?_⟩
  · rw [withModeEffect_sessions, hse]
  · rw [withModeEffect_tasks, hse]
    exact map_pomodoro_id s.tasks tid hdangling
  · rw [withModeEffect_mode, hse]

/-- Concrete running focus state whose selection "ghost" matches no stored
task, to witness the dangling-selection expiry claim. -/
def witnessDanglingState : AppState :=
  { tasks := [witnessFocusTask], selectedTaskId := some "ghost", sessions := [],
    mode := Mode.focus, secondsLeft := 1, isRunning := true,
    currentSessionStart := some 5000 }

/-- Witness for C10: expiring the dangling-selection state appends a focus
Session carrying the dangling id and leaves the task list unchanged. -/
theorem dangling_expire_spec_witness :
    (∀ t ∈ witnessDanglingState.tasks, t.id ≠ "ghost") ∧
    (tick 65000 "s3" witnessDanglingState).sessions =
      [{ id := "s3", taskId := some "ghost", startMs := 5000, endMs := 65000,
         durationSec := jsRoundDurationSec (65000 - 5000), type := Mode.focus }] ∧
    (tick 65000 "s3" witnessDanglingState).tasks = witnessDanglingState.tasks ∧
    (tick 65000 "s3" witnessDanglingState).mode = Mode.brk := by
  have h := dangling_expire_spec 65000 5000 "s3" "ghost" witnessDanglingState
    rfl rfl rfl rfl (by decide) (by decide) (by decide)
  exact ⟨by decide, h.1, h.2.1, h.2.2⟩

theorem step_preserves_running_start {s s' : AppState} (h : Step s s')
    (ih : s.isRunning = true → s.currentSessionStart.isSome) :
    s'.isRunning = true → s'.currentSessionStart.isSome := by
  cases h with
  | start now s =>
    unfold handleStart
    split
    · exact ih
    · split
      · intro _
        rfl
      · exact ih
  | pause s =>
    intro hr
    exact absurd hr (by simp [handlePause])
  | reset s =>
    intro hr
    exact absurd hr (by simp [handleReset])
  | switchMode s =>
    intro hr
    rw [handleSwitchMode, withModeEffect_isRunning] at hr
    exact absurd hr (by simp)
  | tick now sid s =>
    unfold tick
    split
    · split
      · intro hr
        rw [withModeEffect_isRunning, handleSessionEnd_isRunning] at hr
        exact absurd hr (by simp)
      · exact ih
    · exact ih
  | addTask newId title category est s =>
    rw [handleAddTask_isRunning, handleAddTask_currentSessionStart]
    exact ih
  | toggleDone taskId s => exact ih
  | select taskId s => exact ih

/-- C9 amended: in every reachable state a running countdown has a session
start timestamp; Reset, Switch Mode and an expiring tick all leave
currentSessionStart absent; Pause stops the countdown but keeps
currentSessionStart, so presence of the timestamp does not coincide with the
countdown actively progressing. -/
theorem sessionStart_amended :
    (∀ s : AppState, Reachable s → s.isRunning = true → s.currentSessionStart.isSome) ∧
    (∀ s : AppState, (handleReset s).currentSessionStart = none) ∧
    (∀ s : AppState, (handleSwitchMode s).currentSessionStart = none) ∧
    (∀ (now : Nat) (sid : String) (s : AppState), s.isRunning = true → s.secondsLeft ≤ 1 →
        (tick now sid s).currentSessionStart = none) ∧
    (∀ s : AppState, (handlePause s).currentSessionStart = s.currentSessionStart ∧
        (handlePause s).isRunning = false) := by
  refine ⟨?_, fun s => rfl, ?_, ?_, fun s => ⟨rfl, rfl⟩⟩
  · intro s hs
    induction hs with
    | init tasks0 sessions0 => intro h; exact absurd h (by simp [initState])
    | step hr hstep ih => exact step_preserves_running_start hstep ih
  · intro s
    rw [handleSwitchMode, withModeEffect_currentSessionStart]
  · intro now sid s hrun hsec
    rw [tick_expire_eq now sid s hrun hsec, withModeEffect_currentSessionStart,
      handleSessionEnd_currentSessionStart]

/-- The reachable state exhibiting the gap in C9 as stated: add a task (it
becomes selected), start the focus countdown, then pause. -/
def pausedWithStartState : AppState :=
  handlePause (handleStart 5 (handleAddTask "1" "a" "" (some 1) (initState [] [])))

/-- Counterexample to C9 as stated: there is a reachable state in which the
countdown is not progressing (isRunning is false) yet currentSessionStart is
present, because Pause keeps the timestamp. -/
theorem sessionStart_iff_cex :
    ¬ (∀ s : AppState, Reachable s → (s.currentSessionStart.isSome = s.isRunning)) := by
  intro h
  have hreach : Reachable pausedWithStartState := by
    have h0 : Reachable (initState [] []) := Reachable.init [] []
    have h1 := Reachable.step h0 (Step.addTask "1" "a" "" (some 1) (initState [] []))
    have h2 := Reachable.step h1 (Step.start 5 _)
    exact Reachable.step h2 (Step.pause _)
  have := h pausedWithStartState hreach
  revert this
  decide

/-- Witness for the amended C9: the invariant applied to a concrete
reachable running state, and Pause keeping the timestamp there. -/
theorem sessionStart_amended_witness :
    (handleStart 5 (handleAddTask "1" "a" "" (some 1) (initState [] []))).isRunning = true ∧
    (handleStart 5 (handleAddTask "1" "a" "" (some 1) (initState [] []))).currentSessionStart.isSome := by
  refine ⟨by decide, ?_⟩
  have h0 : Reachable (initState [] []) := Reachable.init [] []
  have h1 := Reachable.step h0 (Step.addTask "1" "a" "" (some 1) (initState [] []))
  have h2 := Reachable.step h1 (Step.start 5 _)
  exact sessionStart_amended.1 _ h2 (by decide)

theorem toggle_preserves_estimates (taskId : String) (s : AppState) :
    (toggleTaskDone taskId s).tasks.map Task.estimate = s.tasks.map Task.estimate := by
  simp only [toggleTaskDone]
  rw [List.map_map]
  exact List.map_congr_left fun a _ => by by_cases h : a.id = taskId <;> simp [h]

theorem handleSessionEnd_estimates (now : Nat) (sid : String) (s : AppState) :
    (handleSessionEnd now sid s).tasks.map Task.estimate = s.tasks.map Task.estimate := by
  unfold handleSessionEnd
  rcases h : s.currentSessionStart with _ | st
  · simp [h]
  · simp only [h]
    split
    · rw [List.map_map]
      exact List.map_congr_left fun a _ => by
        by_cases hc : some a.id = s.selectedTaskId <;> simp [hc]
    · rfl

/-- Counterexample to C8 as stated: the add handler stores a negative
estimate unchanged, so a stored task can have estimate below 0 (the only
non-negativity guard is the min attribute of the presentation-layer form
input, not the handler). -/
theorem estimate_nonneg_cex :
    (handleAddTask "1" "a" "" (some (-5)) (initState [] [])).tasks =
      [{ id := "1", title := "a", category := "", estimate := -5, done := false,
         completedPomodoros := 0 }] ∧
    (-5 : Int) < 0 := by
  constructor
  · decide
  · decide

/-- C8 amended: the estimate of a task created by Add is exactly the numeric
value of the input, with 0 substituted when the input is NaN; it is
therefore non-negative whenever the input is non-negative or non-numeric,
and no operation other than Add ever changes any stored estimate (Add only
appends one). -/
theorem estimate_amended :
    (∀ (newId title category : String) (est : Option Int) (s : AppState),
        jsTrim title ≠ "" →
        (handleAddTask newId title category est s).tasks = s.tasks ++
          [{ id := newId, title := jsTrim title, category := jsTrim category,
             estimate := jsOr0 est, done := false, completedPomodoros := 0 }]) ∧
    jsOr0 none = 0 ∧
    (∀ v : Int, jsOr0 (some v) = v) ∧
    (∀ v : Int, 0 ≤ v → 0 ≤ jsOr0 (some v)) ∧
    (∀ s s' : AppState, Step s s' →
        s'.tasks.map Task.estimate = s.tasks.map Task.estimate ∨
        ∃ est : Option Int,
          s'.tasks.map Task.estimate = s.tasks.map Task.estimate ++ [jsOr0 est]) := by
  refine ⟨?_, rfl, fun v => rfl, fun v hv => hv, ?_⟩
  · intro newId title category est s h
    simp only [handleAddTask, if_neg h]
    split <;> rfl
  · intro s s' hstep
    cases hstep with
    | start now s =>
      left
      rw [handleStart_tasks]
    | pause s => left; rfl
    | reset s => left; rfl
    | switchMode s =>
      left
      rw [handleSwitchMode, withModeEffect_tasks]
    | tick now sid s =>
      left
      unfold tick
      split
      · split
        · rw [withModeEffect_tasks, handleSessionEnd_estimates]
        · rfl
      · rfl
    | addTask newId title category est s =>
      by_cases h : jsTrim title = ""
      · left
        simp [handleAddTask, h]
      · right
        refine ⟨est, ?_⟩
        simp only [handleAddTask, if_neg h]
        split <;> simp
    | toggleDone taskId s =>
      left
      exact toggle_preserves_estimates taskId s
    | select taskId s => left; rfl

/-- Witness for the amended C8: a concrete Add stores the given non-negative
estimate, and a concrete toggle step leaves the estimates untouched. -/
theorem estimate_amended_witness :
    jsTrim "b" ≠ "" ∧
    (handleAddTask "2" "b" "" (some 4) (initState [] [])).tasks =
      [{ id := "2", title := jsTrim "b", category := jsTrim "", estimate := jsOr0 (some 4),
         done := false, completedPomodoros := 0 }] ∧
    (0 : Int) ≤ jsOr0 (some 4) ∧
    ((toggleTaskDone "2" (initState [] [])).tasks.map Task.estimate =
        (initState [] []).tasks.map Task.estimate ∨
      ∃ est : Option Int,
        (toggleTaskDone "2" (initState [] [])).tasks.map Task.estimate =
          (initState [] []).tasks.map Task.estimate ++ [jsOr0 est]) := by
  refine ⟨by decide, ?_, ?_, ?_⟩
  · exact estimate_amended.1 "2" "b" "" (some 4) (initState [] []) (by decide)
  · exact estimate_amended.2.2.2.1 4 (by decide)
  · exact estimate_amended.2.2.2.2 _ _ (Step.toggleDone "2" (initState [] []))

/-! Daily aggregator lemmas. -/

/-- The per-day focus total described by the spec, for comparison with the
dailyStats computed by the source: the sum of durationSec over the focus
sessions whose start falls on the given UTC day. -/
def specFocusDaySum (sessions : List Session) (d : Nat) : Nat :=
  (((focusSessions sessions).filter fun s => dayKey s.startMs = d).map Session.durationSec).sum

/-- The total recorded under day d in an accumulator (0 when d is absent;
with distinct keys this is the value stored at d). -/
def valSum (acc : List (Nat × Nat)) (d : Nat) : Nat :=
  ((acc.filter fun p => p.1 = d).map Prod.snd).sum

theorem addToStats_keys_present (acc : List (Nat × Nat)) (s : Session)
    (h : acc.any (fun p => p.1 = dayKey s.startMs) = true) :
    (addToStats acc s).map Prod.fst = acc.map Prod.fst := by
  simp only [addToStats]
  rw [if_pos h, List.map_map]
  exact List.map_congr_left fun a _ => by by_cases hc : a.1 = dayKey s.startMs <;> simp [hc]

theorem addToStats_keys_absent (acc : List (Nat × Nat)) (s : Session)
    (h : ¬ (acc.any (fun p => p.1 = dayKey s.startMs) = true)) :
    (addToStats acc s).map Prod.fst = acc.map Prod.fst ++ [dayKey s.startMs] := by
  simp only [addToStats]
  rw [if_neg h]
  simp

theorem addToStats_nodup (acc : List (Nat × Nat)) (s : Session)
    (h : (acc.map Prod.fst).Nodup) : ((addToStats acc s).map Prod.fst).Nodup := by
  by_cases hp : acc.any (fun p => p.1 = dayKey s.startMs) = true
  · rw [addToStats_keys_present acc s hp]
    exact h
  · rw [addToStats_keys_absent acc s hp, List.nodup_append]
    refine ⟨h, List.nodup_singleton _, ?_⟩
    intro a ha hb
    rw [List.mem_singleton] at hb
    subst hb
    rcases List.mem_map.mp ha with ⟨p, hpmem, hpa⟩
    exact hp (List.any_eq_true.mpr ⟨p, hpmem, by simp [hpa]⟩)

theorem valSum_eq_zero (l : List (Nat × Nat)) (d : Nat) (h : ∀ q ∈ l, q.1 ≠ d) :
    valSum l d = 0 := by
  unfold valSum
  have hfil : l.filter (fun p => p.1 = d) = [] := by
    rw [List.filter_eq_nil_iff]
    intro a ha
    simp [h a ha]
  rw [hfil]
  rfl

theorem valSum_cons (q : Nat × Nat) (l : List (Nat × Nat)) (d : Nat) :
    valSum (q :: l) d = (if q.1 = d then q.2 else 0) + valSum l d := by
  unfold valSum
  rw [List.filter_cons]
  by_cases h : q.1 = d <;> simp [h]

theorem valSum_append (l1 l2 : List (Nat × Nat)) (d : Nat) :
    valSum (l1 ++ l2) d = valSum l1 d + valSum l2 d := by
  unfold valSum
  rw [List.filter_append, List.map_append, List.sum_append]

theorem valSum_map_add (acc : List (Nat × Nat)) (key dur : Nat)
    (hnodup : (acc.map Prod.fst).Nodup)
    (hmem : acc.any (fun p => p.1 = key) = true) :
    valSum (acc.map fun p => if p.1 = key then (p.1, p.2 + dur) else p) key =
      valSum acc key + dur := by
  induction acc with
  | nil => simp at hmem
  | cons q rest ih =>
    rw [List.map_cons, List.nodup_cons] at hnodup
    by_cases hq : q.1 = key
    · have hrest : ∀ p ∈ rest, p.1 ≠ key := by
        intro p hp hpk
        have hm : p.1 ∈ rest.map Prod.fst := List.mem_map_of_mem Prod.fst hp
        rw [hpk, ← hq] at hm
        exact hnodup.1 hm
      have hmaprest :
          rest.map (fun p => if p.1 = key then (p.1, p.2 + dur) else p) = rest := by
        conv_rhs => rw [← List.map_id rest]
        exact List.map_congr_left fun a ha => by simp [hrest a ha]
      have hz : valSum rest key = 0 := valSum_eq_zero rest key hrest
      rw [List.map_cons, if_pos hq, hmaprest, valSum_cons, valSum_cons, hz,
        if_pos hq, if_pos hq]
      omega
    · have hmem' : rest.any (fun p => p.1 = key) = true := by
        rcases List.any_eq_true.mp hmem with ⟨p, hp, hpk⟩
        have hpk' : p.1 = key := by simpa using hpk
        rcases List.mem_cons.mp hp with h | h
        · exact absurd (h ▸ hpk') hq
        · exact List.any_eq_true.mpr ⟨p, h, by simpa using hpk'⟩
      rw [List.map_cons, if_neg hq, valSum_cons, valSum_cons, ih hnodup.2 hmem']
      simp only [if_neg hq]
      omega

theorem valSum_map_other (acc : List (Nat × Nat)) (key dur d : Nat) (hd : key ≠ d) :
    valSum (acc.map fun p => if p.1 = key then (p.1, p.2 + dur) else p) d = valSum acc d := by
  induction acc with
  | nil => rfl
  | cons q rest ih =>
    rw [List.map_cons, valSum_cons, valSum_cons, ih]
    congr 1
    by_cases hq : q.1 = key
    · rw [if_pos hq]
      simp [hq, hd]
    · rw [if_neg hq]

theorem addToStats_valSum (acc : List (Nat × Nat)) (s : Session) (d : Nat)
    (hnodup : (acc.map Prod.fst).Nodup) :
    valSum (addToStats acc s) d =
      valSum acc d + (if dayKey s.startMs = d then s.durationSec else 0) := by
  by_cases hp : acc.any (fun p => p.1 = dayKey s.startMs) = true
  · simp only [addToStats]
    rw [if_pos hp]
    by_cases hd : dayKey s.startMs = d
    · subst hd
      rw [valSum_map_add acc _ _ hnodup hp, if_pos rfl]
    · rw [valSum_map_other acc _ _ d hd, if_neg hd]
      omega
  · simp only [addToStats]
    rw [if_neg hp, valSum_append]
    congr 1
    by_cases hd : dayKey s.startMs = d <;> simp [valSum, hd]

theorem foldl_stats_nodup (l : List Session) (acc : List (Nat × Nat))
    (h : (acc.map Prod.fst).Nodup) :
    ((l.foldl addToStats acc).map Prod.fst).Nodup := by
  induction l generalizing acc with
  | nil => exact h
  | cons s rest ih =>
    rw [List.foldl_cons]
    exact ih _ (addToStats_nodup acc s h)

theorem foldl_valSum (l : List Session) (acc : List (Nat × Nat)) (d : Nat)
    (hnodup : (acc.map Prod.fst).Nodup) :
    valSum (l.foldl addToStats acc) d =
      valSum acc d + ((l.filter fun s => dayKey s.startMs = d).map Session.durationSec).sum := by
  induction l generalizing acc with
  | nil => simp
  | cons s rest ih =>
    rw [List.foldl_cons, ih _ (addToStats_nodup acc s hnodup),
      addToStats_valSum acc s d hnodup, List.filter_cons]
    by_cases hd : dayKey s.startMs = d
    · simp [hd]
      omega
    · simp [hd]

theorem addToStats_mem_keys (acc : List (Nat × Nat)) (s : Session) (d : Nat) :
    d ∈ (addToStats acc s).map Prod.fst ↔
      d ∈ acc.map Prod.fst ∨ d = dayKey s.startMs := by
  by_cases hp : acc.any (fun p => p.1 = dayKey s.startMs) = true
  · rw [addToStats_keys_present acc s hp]
    constructor
    · exact Or.inl
    · rintro (h | h)
      · exact h
      · subst h
        rcases List.any_eq_true.mp hp with ⟨p, hpm, hpk⟩
        have hpk' : p.1 = dayKey s.startMs := by simpa using hpk
        exact hpk' ▸ List.mem_map_of_mem Prod.fst hpm
  · rw [addToStats_keys_absent acc s hp, List.mem_append, List.mem_singleton]

theorem foldl_stats_mem_keys (l : List Session) (acc : List (Nat × Nat)) (d : Nat) :
    d ∈ (l.foldl addToStats acc).map Prod.fst ↔
      d ∈ acc.map Prod.fst ∨ ∃ s ∈ l, d = dayKey s.startMs := by
  induction l generalizing acc with
  | nil => simp
  | cons s rest ih =>
    rw [List.foldl_cons, ih, addToStats_mem_keys]
    constructor
    · rintro ((h | h) | ⟨t, ht, hd⟩)
      · exact Or.inl h
      · exact Or.inr ⟨s, List.mem_cons_self s rest, h⟩
      · exact Or.inr ⟨t, List.mem_cons_of_mem s ht, hd⟩
    · rintro (h | ⟨t, ht, hd⟩)
      · exact Or.inl (Or.inl h)
      · rcases List.mem_cons.mp ht with h | h
        · exact Or.inl (Or.inr (h ▸ hd))
        · exact Or.inr ⟨t, h, hd⟩

theorem valSum_of_mem (stats : List (Nat × Nat)) (p : Nat × Nat)
    (hnodup : (stats.map Prod.fst).Nodup) (hp : p ∈ stats) :
    p.2 = valSum stats p.1 := by
  induction stats with
  | nil => cases hp
  | cons q rest ih =>
    rw [List.map_cons, List.nodup_cons] at hnodup
    rcases List.mem_cons.mp hp with h | h
    · subst h
      have hrest : ∀ u ∈ rest, u.1 ≠ p.1 := by
        intro u hu hup
        exact hnodup.1 (hup ▸ List.mem_map_of_mem Prod.fst hu)
      rw [valSum_cons, if_pos rfl, valSum_eq_zero rest p.1 hrest]
      omega
    · have hqp : q.1 ≠ p.1 := by
        intro he
        exact hnodup.1 (he ▸ List.mem_map_of_mem Prod.fst h)
      rw [valSum_cons, if_neg hqp]
      have hv := ih hnodup.2 h
      omega

theorem foldr_max_le (l : List (Nat × Nat)) :
    ∀ p ∈ l, p.2 ≤ l.foldr (fun p m => max p.2 m) 0 := by
  induction l with
  | nil => intro p hp; cases hp
  | cons q rest ih =>
    intro p hp
    rw [List.foldr_cons]
    rcases List.mem_cons.mp hp with h | h
    · subst h
      exact le_max_left _ _
    · exact le_trans (ih p h) (le_max_right _ _)

theorem foldr_max_mem (l : List (Nat × Nat)) (h : l ≠ []) :
    l.foldr (fun p m => max p.2 m) 0 ∈ l.map Prod.snd := by
  induction l with
  | nil => exact absurd rfl h
  | cons q rest ih =>
    rw [List.foldr_cons, List.map_cons]
    by_cases hr : rest = []
    · subst hr
      simp
    · rcases max_choice q.2 (rest.foldr (fun p m => max p.2 m) 0) with hm | hm
      · rw [hm]
        exact List.mem_cons_self _ _
      · rw [hm]
        exact List.mem_cons_of_mem _ (ih hr)

theorem daysSorted_sorted (sessions : List Session) :
    (daysSorted sessions).Sorted (· ≤ ·) := by
  unfold daysSorted
  have h := @List.sorted_mergeSort Nat (fun a b => decide (a ≤ b))
    (fun a b c hab hbc => by
      simp only [decide_eq_true_eq] at *
      omega)
    (fun a b => by
      simp only [Bool.or_eq_true, decide_eq_true_eq]
      omega)
    ((dailyStats sessions).map Prod.fst)
  exact h.imp fun hab => by simpa using hab

/-- The concrete sessions of the claim: two focus sessions of 300s and 600s
on day D1 (UTC day 0) and one focus session of 120s on day D2 (UTC day 1). -/
def exampleSessions : List Session :=
  [{ id := "e1", taskId := some "t", startMs := 0, endMs := 300000,
     durationSec := 300, type := Mode.focus },
   { id := "e2", taskId := some "t", startMs := 3600000, endMs := 4200000,
     durationSec := 600, type := Mode.focus },
   { id := "e3", taskId := some "t", startMs := 86400000, endMs := 86520000,
     durationSec := 120, type := Mode.focus }]

/-- C5: the daily aggregator keys are exactly the UTC days of focus
sessions; each stored total is the sum of durationSec of the focus sessions
of that day; maxSec bounds every per-day total, is 0 when there are no
days and is attained otherwise; the day keys come out sorted ascending
(chronological); and on the concrete example it yields day totals 900 and
120, maximum 900 and days in chronological order. -/
theorem dailyStats_spec :
    (∀ (sessions : List Session) (d : Nat),
        d ∈ (dailyStats sessions).map Prod.fst ↔
          ∃ s ∈ sessions, s.type = Mode.focus ∧ d = dayKey s.startMs) ∧
    (∀ sessions : List Session, ∀ p ∈ dailyStats sessions,
        p.2 = specFocusDaySum sessions p.1) ∧
    (∀ sessions : List Session, ∀ p ∈ dailyStats sessions, p.2 ≤ maxSec sessions) ∧
    (∀ sessions : List Session, dailyStats sessions = [] → maxSec sessions = 0) ∧
    (∀ sessions : List Session, dailyStats sessions ≠ [] →
        maxSec sessions ∈ (dailyStats sessions).map Prod.snd) ∧
    (∀ sessions : List Session, (daysSorted sessions).Sorted (· ≤ ·) ∧
        (daysSorted sessions).Perm ((dailyStats sessions).map Prod.fst)) ∧
    dailyStats exampleSessions = [(0, 900), (1, 120)] ∧
    maxSec exampleSessions = 900 ∧
    daysSorted exampleSessions = [0, 1] := by
  refine ⟨?_, ?_, ?_, ?_, ?_, ?_, by decide, by decide, ?_⟩
  · intro ss d
    unfold dailyStats
    rw [foldl_stats_mem_keys]
    simp only [List.map_nil, List.not_mem_nil, false_or]
    constructor
    · rintro ⟨s, hs, hd⟩
      rcases List.mem_filter.mp hs with ⟨hmem, htype⟩
      exact ⟨s, hmem, by simpa using htype, hd⟩
    · rintro ⟨s, hmem, htype, hd⟩
      exact ⟨s, List.mem_filter.mpr ⟨hmem, by simpa using htype⟩, hd⟩
  · intro ss p hp
    have hnodup : (([] : List (Nat × Nat)).map Prod.fst).Nodup := by simp
    calc p.2 = valSum (dailyStats ss) p.1 :=
          valSum_of_mem _ p (foldl_stats_nodup _ [] hnodup) hp
      _ = valSum [] p.1 +
          (((focusSessions ss).filter fun s => dayKey s.startMs = p.1).map
            Session.durationSec).sum := foldl_valSum _ [] p.1 hnodup
      _ = specFocusDaySum ss p.1 := by simp [valSum, specFocusDaySum]
  · intro ss p hp
    exact foldr_max_le _ p hp
  · intro ss h
    unfold maxSec
    rw [h]
    rfl
  · intro ss h
    exact foldr_max_mem _ h
  · intro ss
    refine ⟨daysSorted_sorted ss, ?_⟩
    unfold daysSorted
    exact List.mergeSort_perm _ _
  · unfold daysSorted
    rw [show (dailyStats exampleSessions).map Prod.fst = [0, 1] from by decide]
    exact List.mergeSort_eq_self (by simp)

/-- Witness for C5: the day-0 entry of the example satisfies the per-day sum
and the maximum bound. -/
theorem dailyStats_spec_witness :
    ((0, 900) ∈ dailyStats exampleSessions) ∧
    ((0, 900) : Nat × Nat).2 = specFocusDaySum exampleSessions 0 ∧
    ((0, 900) : Nat × Nat).2 ≤ maxSec exampleSessions := by
  refine ⟨by decide, ?_, ?_⟩
  · exact dailyStats_spec.2.1 exampleSessions (0, 900) (by decide)
  · exact dailyStats_spec.2.2.1 exampleSessions (0, 900) (by decide)

end Pomodoro
